import Mathlib

/-!
Shallow embedding of the document-manager storage and query layer of
src/script.js (a browser-local record store with an indexed-database primary
backend and a localStorage fallback, plus a filter/sort query layer, a derived
tag index and a calendar date index).

Records are JavaScript objects; we embed them as a structure.  JavaScript
strings become Lean strings, numbers used as ids and sizes become naturals,
and the millisecond timestamps obtained by parsing ISO-8601 date strings
become integers.  The store held in localStorage is the deserialized array of
record objects, embedded as a list.
-/

/-- A stored record, as built by handleUpload and persisted by the store
(src/script.js lines 361-370).  The source represents an absent description
as the empty string (text inputs always yield strings; the code tests the
string for truthiness, and the empty string is falsy).  The id field of a
not-yet-inserted object is 0 here; the source object simply lacks the field
until the store assigns it, and every code path overwrites it before use. -/
structure Entry where
  id : Nat
  title : String
  description : String
  tags : List String
  fileName : String
  fileType : String
  type : String
  fileData : String
  date : String
deriving DecidableEq

/-- Model of the JavaScript method String.prototype.toLowerCase as used by the
source: per-character lowercasing. -/
def lowerStr (s : String) : String := ⟨s.data.map Char.toLower⟩

/-- Model of the JavaScript method String.prototype.includes on character
lists: does the first list occur as a contiguous block of the second. -/
def containsSub (sub : List Char) : List Char → Bool
  | [] => sub.isEmpty
  | c :: rest => sub.isPrefixOf (c :: rest) || containsSub sub rest

/-- String form of containsSub: hay.includes sub in the source. -/
def strIncludes (hay sub : String) : Bool := containsSub sub.data hay.data

/-- Model of the JavaScript method String.prototype.startsWith. -/
def strStartsWith (s p : String) : Bool := p.data.isPrefixOf s.data

/-- Model of the JavaScript method String.prototype.trim: strip leading and
trailing whitespace. -/
def trimStr (s : String) : String :=
  ⟨((s.data.dropWhile Char.isWhitespace).reverse.dropWhile Char.isWhitespace).reverse⟩

/-- File size limit, 10 MiB (src/script.js line 7). -/
def MAX_FILE_SIZE : Nat := 10 * 1024 * 1024

/-- The allowed-content-type table ALLOWED_TYPES (src/script.js lines 10-17):
maps an allowed MIME type to its file-kind label, and anything else to none
(in the source, indexing the object with an unknown key yields undefined). -/
def ALLOWED_TYPES (mime : String) : Option String :=
  if mime = "application/pdf" then some "pdf"
  else if mime = "application/vnd.openxmlformats-officedocument.wordprocessingml.document" then some "docx"
  else if mime = "text/plain" then some "txt"
  else if mime = "image/jpeg" then some "jpg"
  else if mime = "image/png" then some "png"
  else if mime = "video/mp4" then some "mp4"
  else none

/-- Search predicate of loadEntries (src/script.js lines 88-90).  The argument
searchTerm is the search input already lowercased (line 83).  The description
conjunct is guarded by the truthiness of entry.description, so an absent
(empty) description never raises an error and simply does not match. -/
def matchesSearch (searchTerm : String) (e : Entry) : Bool :=
  searchTerm == "" ||
    strIncludes (lowerStr e.title) searchTerm ||
    (decide (e.description ≠ "") && strIncludes (lowerStr e.description) searchTerm)

/-- Type predicate of loadEntries (src/script.js line 92). -/
def matchesType (typeFilter : String) (e : Entry) : Bool :=
  typeFilter == "all" || e.type == typeFilter

/-- Tag predicate of loadEntries (src/script.js lines 94-95).  Records built
by handleUpload always carry a tags array, so the truthiness guard on
entry.tags is the identity here. -/
def matchesTag (tagFilter : String) (e : Entry) : Bool :=
  tagFilter == "all" || e.tags.any fun t => lowerStr t == lowerStr tagFilter

/-- Day count from 1970-01-01 for a Gregorian calendar date, the standard
civil-from-days inverse used by the host environment when parsing an ISO-8601
timestamp string. -/
def daysFromCivil (y m d : Int) : Int :=
  let y2 : Int := if m ≤ 2 then y - 1 else y
  let era : Int := (if 0 ≤ y2 then y2 else y2 - 399) / 400
  let yoe : Int := y2 - era * 400
  let mp : Int := (m + 9) % 12
  let doy : Int := (153 * mp + 2) / 5 + d - 1
  let doe : Int := yoe * 365 + yoe / 4 - yoe / 100 + doy
  era * 146097 + doe - 719468

/-- Read the decimal digits of s at positions start..start+len-1 as a number. -/
def sliceNat (s : String) (start len : Nat) : Nat :=
  ((s.data.drop start).take len).foldl (fun a c => a * 10 + (c.toNat - 48)) 0

/-- Model of new Date(s).getTime() for the fixed-width strings produced by
Date.prototype.toISOString (the only strings the store writes into the date
field): milliseconds since the epoch. -/
def parseDateMillis (s : String) : Int :=
  let y := (sliceNat s 0 4 : Int)
  let mo := (sliceNat s 5 2 : Int)
  let d := (sliceNat s 8 2 : Int)
  let h := (sliceNat s 11 2 : Int)
  let mi := (sliceNat s 14 2 : Int)
  let sec := (sliceNat s 17 2 : Int)
  let ms := (sliceNat s 20 3 : Int)
  daysFromCivil y mo d * 86400000 + h * 3600000 + mi * 60000 + sec * 1000 + ms

/-- Sort relation of loadEntries (src/script.js line 101): the comparator
(a, b) => new Date(b.date) - new Date(a.date) orders entries by parsed
timestamp, newest first. -/
def dateDesc (a b : Entry) : Prop := parseDateMillis b.date ≤ parseDateMillis a.date

instance : DecidableRel dateDesc := fun a b =>
  inferInstanceAs (Decidable (parseDateMillis b.date ≤ parseDateMillis a.date))

instance : IsTotal Entry dateDesc := ⟨fun _ _ => Int.le_total _ _⟩

instance : IsTrans Entry dateDesc := ⟨fun _ _ _ h1 h2 => le_trans h2 h1⟩

/-- The filter-and-sort pipeline of loadEntries (src/script.js lines 83-101):
lowercase the search input, keep the entries matching all three predicates,
sort by date newest first.  The sort models Array.prototype.sort with the
numeric date comparator; insertion sort is a stable sort, as the host sort is
required to be. -/
def filterAndSort (records : List Entry) (searchInput typeFilter tagFilter : String) : List Entry :=
  let searchTerm := lowerStr searchInput
  let filtered := records.filter fun e =>
    matchesSearch searchTerm e && matchesType typeFilter e && matchesTag tagFilter e
  List.insertionSort dateDesc filtered

/-- Largest id present in the store: Math.max(...entries.map(e => e.id)) in
addEntryToLocalStorage, meaningful there only for a non-empty store. -/
def maxIdOf (entries : List Entry) : Nat :=
  (entries.map fun e => e.id).foldr max 0

/-- addEntryToLocalStorage (src/script.js lines 421-427): assign the next id
(max existing id plus one, or 1 for an empty store), append, return the
assigned id. -/
def addEntryToLocalStorage (entries : List Entry) (entry : Entry) : List Entry × Nat :=
  let newId := if entries.isEmpty then 1 else maxIdOf entries + 1
  (entries ++ [{ entry with id := newId }], newId)

/-- updateEntryInLocalStorage (src/script.js lines 437-444): find the index of
the first stored entry with the same id; if found, overwrite that slot with
the new record; otherwise do nothing. -/
def updateEntryInLocalStorage (entries : List Entry) (entry : Entry) : List Entry :=
  match entries.findIdx? (fun e => e.id == entry.id) with
  | some index => entries.set index entry
  | none => entries

/-- removeEntryFromLocalStorage (src/script.js lines 454-458): keep the
entries whose id differs from the argument. -/
def removeEntryFromLocalStorage (entries : List Entry) (id : Nat) : List Entry :=
  entries.filter fun e => e.id != id

/-- getEntryById on the fallback backend (src/script.js lines 460-467): first
stored entry with the given id, if any. -/
def getEntryById (entries : List Entry) (id : Nat) : Option Entry :=
  entries.find? fun e => e.id == id

/-- The selected file as handleUpload sees it: name, reported MIME content
type, size in bytes, and the data URL the FileReader produces for it. -/
structure FileInfo where
  name : String
  mimeType : String
  size : Nat
  dataURL : String
deriving DecidableEq

/-- The state of the upload form when the upload button is pressed: the chosen
file (none when the file input is empty) and the three text inputs. -/
structure UploadForm where
  file : Option FileInfo
  title : String
  description : String
  tags : String
deriving DecidableEq

/-- Outcome of handleUpload: a validation rejection (surfaced as a toast, no
exception), an update of an existing entry, or an insertion returning the
assigned id. -/
inductive UploadResult where
  | rejected (msg : String)
  | updated
  | added (id : Nat)
deriving DecidableEq

/-- Is the outcome a validation rejection. -/
def UploadResult.isRejected : UploadResult → Bool
  | .rejected _ => true
  | _ => false

/-- Category derivation in handleUpload (src/script.js lines 347-350): image
and video by MIME prefix, document otherwise. -/
def fileCategory (mime : String) : String :=
  if strStartsWith mime "image/" then "image"
  else if strStartsWith mime "video/" then "video"
  else "document"

/-- Tag parsing in handleUpload (src/script.js lines 353-355): an empty tags
input is falsy and yields no tags; otherwise split on commas, trim each piece
and drop the empty ones. -/
def parseTags (s : String) : List String :=
  if s = "" then []
  else ((s.data.splitOn ',').map fun cs => trimStr ⟨cs⟩).filter fun t => t ≠ ""

/-- The record object built by handleUpload (src/script.js lines 361-370)
before an id is attached: trimmed title and description, parsed tags, file
metadata, the FileReader data URL, and the current time as the date.  The
source object carries no id yet; 0 stands for the missing field. -/
def mkUploadEntry (form : UploadForm) (f : FileInfo) (now : String) : Entry :=
  { id := 0
    title := trimStr form.title
    description := trimStr form.description
    tags := parseTags form.tags
    fileName := f.name
    fileType := (ALLOWED_TYPES f.mimeType).getD ""
    type := fileCategory f.mimeType
    fileData := f.dataURL
    date := now }

/-- handleUpload against the fallback backend (src/script.js lines 314-395):
validate (file chosen, title non-empty, content type allowed, size within
limit), rejecting with a message and touching nothing on failure; then build
the record stamped with the current time and either update the entry being
edited (currentEntryId set) or insert a new one.  The store passes through
unchanged on every rejection path; no exception escapes. -/
def handleUpload (store : List Entry) (form : UploadForm) (now : String)
    (currentEntryId : Option Nat) : List Entry × UploadResult :=
  match form.file with
  | none => (store, .rejected "Please select a file")
  | some f =>
    if trimStr form.title = "" then (store, .rejected "Please enter a title")
    else if (ALLOWED_TYPES f.mimeType).isNone then (store, .rejected "File type not allowed")
    else if MAX_FILE_SIZE < f.size then (store, .rejected "File size exceeds 10MB limit")
    else
      let entry := mkUploadEntry form f now
      match currentEntryId with
      | some i => (updateEntryInLocalStorage store { entry with id := i }, .updated)
      | none =>
        let r := addEntryToLocalStorage store entry
        (r.1, .added r.2)

/-- One store operation of the fallback backend, for invariant reasoning:
insert discards the id field of its argument (the store assigns one), update
and delete are the localStorage routines. -/
inductive Op where
  | insert (e : Entry)
  | update (e : Entry)
  | delete (id : Nat)

/-- Apply one operation to the fallback store. -/
def applyOp (store : List Entry) : Op → List Entry
  | .insert e => (addEntryToLocalStorage store e).1
  | .update e => updateEntryInLocalStorage store e
  | .delete id => removeEntryFromLocalStorage store id

/-- Apply a sequence of operations to the fallback store, oldest first. -/
def applyOps (store : List Entry) (ops : List Op) : List Entry :=
  ops.foldl applyOp store

/-- Insert one lowercased tag into the accumulated tag list, skipping
duplicates: the effect of Set.prototype.add in loadTags, with the insertion
order of the set kept as list order. -/
def insTag (acc : List String) (t : String) : List String :=
  if lowerStr t ∈ acc then acc else acc ++ [lowerStr t]

/-- The tag set collected by loadTags (src/script.js lines 595-601) in set
insertion order: every tag of every entry, lowercased, first occurrence
kept. -/
def collectTags (entries : List Entry) : List String :=
  entries.foldl (fun acc e => e.tags.foldl insTag acc) []

/-- The derived tag index of loadTags (src/script.js lines 592-615): the
collected lowercased tag set sorted with the default string sort of
Array.prototype.sort, which is lexicographic comparison. -/
def loadTags (entries : List Entry) : List String :=
  List.insertionSort (fun a b : String => a ≤ b) (collectTags entries)

/-- The date portion of an ISO timestamp string: the source splits the string
at the letter T and keeps the first piece, so everything before the first T. -/
def datePart (s : String) : String := ⟨s.data.takeWhile fun c => c ≠ 'T'⟩

/-- doesDateHaveEntries (src/script.js lines 563-578), resolved value: false
for an empty store, otherwise whether some entry date string has the same
date portion as the ISO string of the queried day. -/
def doesDateHaveEntries (entries : List Entry) (dateISO : String) : Bool :=
  if entries.isEmpty then false
  else entries.any fun e => datePart e.date == datePart dateISO

/-- The truth value renderCalendar actually uses for the has-entries class of
a current-month day (src/script.js line 513): the source calls the async
doesDateHaveEntries without awaiting it, so the conditional tests the Promise
object itself, and an object is always truthy - the class is applied to every
day regardless of the store contents. -/
def calendarDayMarked (_entries : List Entry) (_dateISO : String) : Bool := true

/-! Helper lemmas. -/

theorem bool_eq_of_iff {a b : Bool} (h : a = true ↔ b = true) : a = b := by
  cases a <;> cases b <;> simp_all

theorem lowerStr_eq_empty_iff {s : String} : lowerStr s = "" ↔ s = "" := by
  rw [String.ext_iff, String.ext_iff]
  show s.data.map Char.toLower = "".data ↔ s.data = "".data
  have hnil : "".data = [] := rfl
  rw [hnil, List.map_eq_nil_iff]

theorem data_ne_nil_of_ne_empty {s : String} (h : s ≠ "") : s.data ≠ [] := by
  intro hd
  apply h
  rw [String.ext_iff, hd]

/-! Specification-side predicates for the query layer, written from the words
of the specification: case-insensitive substring match of the search term
against title or description with the empty term matching everything, exact
category match or the sentinel all, case-insensitive tag equality or the
sentinel all, the three conjoined. -/

/-- Search predicate as the specification words it. -/
def specSearchOk (searchTerm : String) (e : Entry) : Prop :=
  searchTerm = "" ∨
    strIncludes (lowerStr e.title) (lowerStr searchTerm) = true ∨
    strIncludes (lowerStr e.description) (lowerStr searchTerm) = true

/-- Type-filter predicate as the specification words it. -/
def specTypeOk (typeFilter : String) (e : Entry) : Prop :=
  typeFilter = "all" ∨ e.type = typeFilter

/-- Tag-filter predicate as the specification words it. -/
def specTagOk (tagFilter : String) (e : Entry) : Prop :=
  tagFilter = "all" ∨ ∃ t ∈ e.tags, lowerStr t = lowerStr tagFilter

/-- Conjunction of the three specification predicates. -/
def specFilterPred (searchTerm typeFilter tagFilter : String) (e : Entry) : Prop :=
  specSearchOk searchTerm e ∧ specTypeOk typeFilter e ∧ specTagOk tagFilter e

instance (s : String) (e : Entry) : Decidable (specSearchOk s e) :=
  inferInstanceAs (Decidable (s = "" ∨
    strIncludes (lowerStr e.title) (lowerStr s) = true ∨
    strIncludes (lowerStr e.description) (lowerStr s) = true))

instance (tf : String) (e : Entry) : Decidable (specTypeOk tf e) :=
  inferInstanceAs (Decidable (tf = "all" ∨ e.type = tf))

instance (tg : String) (e : Entry) : Decidable (specTagOk tg e) :=
  inferInstanceAs (Decidable (tg = "all" ∨ ∃ t ∈ e.tags, lowerStr t = lowerStr tg))

instance (s tf tg : String) (e : Entry) : Decidable (specFilterPred s tf tg e) :=
  inferInstanceAs (Decidable (specSearchOk s e ∧ specTypeOk tf e ∧ specTagOk tg e))

theorem matchesSearch_eq_spec (s : String) (e : Entry) :
    matchesSearch (lowerStr s) e = decide (specSearchOk s e) := by
  apply bool_eq_of_iff
  simp only [decide_eq_true_eq]
  by_cases hs : s = ""
  · subst hs
    have h0 : lowerStr "" = "" := rfl
    rw [h0]
    simp [matchesSearch, specSearchOk]
  · have hst : lowerStr s ≠ "" := fun h => hs (lowerStr_eq_empty_iff.mp h)
    have h1 : (lowerStr s == "") = false := by simpa using hst
    by_cases hd : e.description = ""
    · have h2 : decide (e.description ≠ "") = false := by simp [hd]
      have h3 : strIncludes (lowerStr e.description) (lowerStr s) = false := by
        rw [hd]
        show containsSub (lowerStr s).data ("" : String).data = false
        show (lowerStr s).data.isEmpty = false
        have := data_ne_nil_of_ne_empty hst
        simpa [List.isEmpty_iff] using this
      simp [matchesSearch, specSearchOk, h1, h2, h3, hs]
    · have h2 : decide (e.description ≠ "") = true := by simp [hd]
      simp [matchesSearch, specSearchOk, h1, h2, hs]

theorem matchesType_eq_spec (tf : String) (e : Entry) :
    matchesType tf e = decide (specTypeOk tf e) := by
  apply bool_eq_of_iff
  simp [matchesType, specTypeOk]

theorem matchesTag_eq_spec (tg : String) (e : Entry) :
    matchesTag tg e = decide (specTagOk tg e) := by
  apply bool_eq_of_iff
  simp [matchesTag, specTagOk, List.any_eq_true]

theorem filterPred_eq_spec (s tf tg : String) (e : Entry) :
    (matchesSearch (lowerStr s) e && matchesType tf e && matchesTag tg e)
      = decide (specFilterPred s tf tg e) := by
  rw [matchesSearch_eq_spec, matchesType_eq_spec, matchesTag_eq_spec]
  apply bool_eq_of_iff
  simp [specFilterPred, and_assoc]

/-- C1: for every record list and every choice of search term, type filter and
tag filter, the filter-and-sort operation returns exactly the records
satisfying the conjunction of the three predicates - case-insensitive
substring match of the search term against title or description with the
empty term matching everything, type filter equal to the category or the
sentinel all, tag filter case-insensitively equal to some tag or the sentinel
all - sorted by creation timestamp descending, newest first. -/
theorem filterAndSort_exact_and_sorted (records : List Entry) (s tf tg : String) :
    (filterAndSort records s tf tg).Perm
        (records.filter fun e => decide (specFilterPred s tf tg e)) ∧
    List.Sorted dateDesc (filterAndSort records s tf tg) := by
  constructor
  · show (List.insertionSort dateDesc (records.filter fun e =>
        matchesSearch (lowerStr s) e && matchesType tf e && matchesTag tg e)).Perm _
    have h2 : (records.filter fun e =>
        matchesSearch (lowerStr s) e && matchesType tf e && matchesTag tg e)
          = records.filter fun e => decide (specFilterPred s tf tg e) :=
      List.filter_congr fun x _ => filterPred_eq_spec s tf tg x
    rw [h2]
    exact List.perm_insertionSort dateDesc _
  · exact List.sorted_insertionSort dateDesc _

theorem maxIdOf_cons (a : Entry) (t : List Entry) :
    maxIdOf (a :: t) = max a.id (maxIdOf t) := rfl

theorem le_maxIdOf {x : Entry} {store : List Entry} (hx : x ∈ store) :
    x.id ≤ maxIdOf store := by
  induction store with
  | nil => cases hx
  | cons a t ih =>
    rw [maxIdOf_cons]
    rcases List.mem_cons.mp hx with rfl | hmem
    · exact Nat.le_max_left _ _
    · exact Nat.le_trans (ih hmem) (Nat.le_max_right _ _)

theorem maxIdOf_attained {store : List Entry} (h : store ≠ []) :
    ∃ x ∈ store, x.id = maxIdOf store := by
  induction store with
  | nil => exact absurd rfl h
  | cons a t ih =>
    rw [maxIdOf_cons]
    cases t with
    | nil =>
      refine ⟨a, List.mem_cons_self a [], ?_⟩
      show a.id = max a.id (maxIdOf [])
      show a.id = max a.id 0
      exact (Nat.max_zero a.id).symm
    | cons b t2 =>
      rcases Nat.le_total a.id (maxIdOf (b :: t2)) with hle | hle
      · obtain ⟨x, hxmem, hxeq⟩ := ih (by simp)
        exact ⟨x, List.mem_cons_of_mem a hxmem, by rw [hxeq, Nat.max_eq_right hle]⟩
      · exact ⟨a, List.mem_cons_self a _, by rw [Nat.max_eq_left hle]⟩

/-- C2: insertion through the fallback backend assigns the id one greater
than the largest id already in the store when the store is non-empty and 1
when it is empty, persists the record under that id, and returns the
assigned id. -/
theorem addEntry_assigns_id (store : List Entry) (e : Entry) :
    ((addEntryToLocalStorage store e).1
        = store ++ [{ e with id := (addEntryToLocalStorage store e).2 }]) ∧
    (store = [] → (addEntryToLocalStorage store e).2 = 1) ∧
    (store ≠ [] →
      (∀ x ∈ store, x.id < (addEntryToLocalStorage store e).2) ∧
      ∃ x ∈ store, x.id + 1 = (addEntryToLocalStorage store e).2) := by
  refine ⟨rfl, ?_, ?_⟩
  · intro h
    subst h
    rfl
  · intro h
    have hne : store.isEmpty = false := by
      cases store with
      | nil => exact absurd rfl h
      | cons a t => rfl
    have hid : (addEntryToLocalStorage store e).2 = maxIdOf store + 1 := by
      show (if store.isEmpty then 1 else maxIdOf store + 1) = maxIdOf store + 1
      rw [hne]
      rfl
    constructor
    · intro x hx
      rw [hid]
      exact Nat.lt_succ_of_le (le_maxIdOf hx)
    · obtain ⟨x, hxmem, hxeq⟩ := maxIdOf_attained h
      exact ⟨x, hxmem, by rw [hid, hxeq]⟩

/-- Sample stored record for the concrete witnesses. -/
def sampleA : Entry :=
  { id := 5
    title := "Report"
    description := "quarterly numbers"
    tags := ["Work", "URGENT"]
    fileName := "report.pdf"
    fileType := "pdf"
    type := "document"
    fileData := "data:application/pdf;base64,AAAA"
    date := "2024-01-01T10:00:00.000Z" }

/-- Second sample record, with an empty (absent) description. -/
def sampleB : Entry :=
  { id := 2
    title := "Photo"
    description := ""
    tags := ["pets"]
    fileName := "cat.png"
    fileType := "png"
    type := "image"
    fileData := "data:image/png;base64,CCCC"
    date := "2024-01-02T09:00:00.000Z" }

theorem addEntry_assigns_id_witness :
    ([sampleA] ≠ ([] : List Entry)) ∧
    ((∀ x ∈ [sampleA], x.id < (addEntryToLocalStorage [sampleA] sampleB).2) ∧
      ∃ x ∈ [sampleA], x.id + 1 = (addEntryToLocalStorage [sampleA] sampleB).2) :=
  ⟨by decide, (addEntry_assigns_id [sampleA] sampleB).2.2 (by decide)⟩

theorem updateEntry_of_no_match {store : List Entry} {r : Entry}
    (h : ∀ e ∈ store, e.id ≠ r.id) :
    updateEntryInLocalStorage store r = store := by
  unfold updateEntryInLocalStorage
  have hnone : store.findIdx? (fun e => e.id == r.id) = none := by
    rw [List.findIdx?_eq_none_iff]
    intro x hx
    simpa using h x hx
  rw [hnone]

theorem updateEntry_of_match {store : List Entry} {r : Entry}
    (h : ∃ e ∈ store, e.id = r.id) :
    ∃ i, ∃ hi : i < store.length,
      (store.get ⟨i, hi⟩).id = r.id ∧
      updateEntryInLocalStorage store r = store.set i r := by
  cases hfi : store.findIdx? (fun e => e.id == r.id) with
  | none =>
    rw [List.findIdx?_eq_none_iff] at hfi
    obtain ⟨x, hxmem, hxeq⟩ := h
    have := hfi x hxmem
    simp [hxeq] at this
  | some i =>
    obtain ⟨hlt, hp, -⟩ := List.findIdx?_eq_some_iff_getElem.mp hfi
    refine ⟨i, hlt, by simpa using hp, ?_⟩
    unfold updateEntryInLocalStorage
    rw [hfi]

/-- C3: on the fallback backend, update with an id present in the store
replaces the stored record with that id wholesale, and update with an absent
id leaves the store entirely unchanged without failing. -/
theorem updateEntry_replace_or_noop (store : List Entry) (r : Entry) :
    ((∀ e ∈ store, e.id ≠ r.id) → updateEntryInLocalStorage store r = store) ∧
    ((∃ e ∈ store, e.id = r.id) →
      ∃ i, ∃ hi : i < store.length,
        (store.get ⟨i, hi⟩).id = r.id ∧
        updateEntryInLocalStorage store r = store.set i r) :=
  ⟨updateEntry_of_no_match, updateEntry_of_match⟩

/-- The record used to overwrite sampleB in the update witness. -/
def sampleB2 : Entry := { sampleB with title := "Renamed photo" }

theorem updateEntry_replace_or_noop_witness :
    (∃ e ∈ [sampleA, sampleB], e.id = sampleB2.id) ∧
    (∃ i, ∃ hi : i < ([sampleA, sampleB] : List Entry).length,
      (([sampleA, sampleB] : List Entry).get ⟨i, hi⟩).id = sampleB2.id ∧
      updateEntryInLocalStorage [sampleA, sampleB] sampleB2
        = ([sampleA, sampleB] : List Entry).set i sampleB2) :=
  ⟨by decide, (updateEntry_replace_or_noop [sampleA, sampleB] sampleB2).2 (by decide)⟩

theorem getById_update_present {store : List Entry} {r : Entry}
    (h : ∃ e ∈ store, e.id = r.id) :
    getEntryById (updateEntryInLocalStorage store r) r.id = some r := by
  induction store with
  | nil => simp at h
  | cons a t ih =>
    by_cases ha : a.id = r.id
    · have hupd : updateEntryInLocalStorage (a :: t) r = r :: t := by
        unfold updateEntryInLocalStorage
        rw [List.findIdx?_cons]
        simp [ha]
      rw [hupd]
      unfold getEntryById
      rw [List.find?_cons_of_pos _ (by simp)]
    · have h2 : ∃ e ∈ t, e.id = r.id := by
        obtain ⟨x, hxmem, hxeq⟩ := h
        rcases List.mem_cons.mp hxmem with rfl | hm
        · exact absurd hxeq ha
        · exact ⟨x, hm, hxeq⟩
      cases hfi : t.findIdx? (fun e => e.id == r.id) with
      | none =>
        rw [List.findIdx?_eq_none_iff] at hfi
        obtain ⟨x, hxmem, hxeq⟩ := h2
        have := hfi x hxmem
        simp [hxeq] at this
      | some j =>
        have hupd : updateEntryInLocalStorage (a :: t) r = a :: t.set j r := by
          unfold updateEntryInLocalStorage
          rw [List.findIdx?_cons]
          have hpa : (a.id == r.id) = false := by simpa using ha
          rw [hpa]
          simp only [Bool.false_eq_true, if_false]
          rw [List.findIdx?_start_succ, hfi]
          rfl
        have ihv : getEntryById (t.set j r) r.id = some r := by
          have hiv := ih h2
          unfold updateEntryInLocalStorage at hiv
          rw [hfi] at hiv
          exact hiv
        rw [hupd]
        unfold getEntryById at ihv ⊢
        rw [List.find?_cons_of_neg _ (by simpa using ha)]
        exact ihv

/-- The file selected when re-saving sampleA through the edit path. -/
def editFile : FileInfo :=
  { name := "report-v2.pdf"
    mimeType := "application/pdf"
    size := 2048
    dataURL := "data:application/pdf;base64,BBBB" }

/-- The upload-form state when re-saving sampleA through the edit path. -/
def editForm : UploadForm :=
  { file := some editFile
    title := "Edited report"
    description := "new numbers"
    tags := "Work" }

/-- C4 counterexample: editing the stored record sampleA (created at
2024-01-01T10:00:00.000Z) through the save path at 2024-03-05T08:30:00.000Z
does not leave its stored creation timestamp equal to the value it had at
creation, refuting the claim that an edit never modifies createdAt. -/
theorem edit_keeps_createdAt_counterexample :
    (getEntryById (handleUpload [sampleA] editForm "2024-03-05T08:30:00.000Z" (some 5)).1 5).map
        Entry.date ≠ some "2024-01-01T10:00:00.000Z" := by decide

/-- C4 (amended): an edit through the save path overwrites the stored record
wholesale, stamping the current save time into its createdAt field, so after
a successful edit the stored record with the edited id carries the save time
as its timestamp (createdAt behaves as a last-modified time). -/
theorem edit_overwrites_createdAt (store : List Entry) (form : UploadForm)
    (now : String) (i : Nat) (f : FileInfo)
    (hfile : form.file = some f)
    (htitle : trimStr form.title ≠ "")
    (htype : (ALLOWED_TYPES f.mimeType).isSome = true)
    (hsize : f.size ≤ MAX_FILE_SIZE)
    (hmem : ∃ e ∈ store, e.id = i) :
    (getEntryById (handleUpload store form now (some i)).1 i).map Entry.date = some now := by
  have hisnone : (ALLOWED_TYPES f.mimeType).isNone = false := by
    rcases Option.isSome_iff_exists.mp htype with ⟨k, hk⟩
    rw [hk]
    rfl
  have hupd : (handleUpload store form now (some i)).1
      = updateEntryInLocalStorage store { mkUploadEntry form f now with id := i } := by
    simp only [handleUpload, hfile]
    rw [if_neg htitle, hisnone]
    simp only [Bool.false_eq_true, if_false]
    rw [if_neg (Nat.not_lt.mpr hsize)]
  have hrid : ({ mkUploadEntry form f now with id := i } : Entry).id = i := rfl
  have hmem2 : ∃ e ∈ store, e.id = ({ mkUploadEntry form f now with id := i } : Entry).id := by
    rw [hrid]
    exact hmem
  rw [hupd, ← hrid, getById_update_present hmem2]
  rfl

theorem edit_overwrites_createdAt_witness :
    (editForm.file = some editFile) ∧ (trimStr editForm.title ≠ "") ∧
    ((ALLOWED_TYPES editFile.mimeType).isSome = true) ∧
    (editFile.size ≤ MAX_FILE_SIZE) ∧ (∃ e ∈ [sampleA], e.id = 5) ∧
    ((getEntryById (handleUpload [sampleA] editForm "2024-03-05T08:30:00.000Z" (some 5)).1 5).map
        Entry.date = some "2024-03-05T08:30:00.000Z") :=
  ⟨rfl, by decide, by decide, by decide, by decide,
    edit_overwrites_createdAt [sampleA] editForm "2024-03-05T08:30:00.000Z" 5 editFile rfl
      (by decide) (by decide) (by decide) (by decide)⟩

/-- C5: the calendar date index as rendered diverges from the stored records.
With an empty store no createdAt falls on 2024-01-15, and the resolved value
of doesDateHaveEntries is false accordingly, yet renderCalendar still marks
the day: it never awaits the Promise returned by the async
doesDateHaveEntries, and a Promise object is truthy, so every current-month
day gets the has-entries mark regardless of the store contents. -/
theorem calendarMark_diverges_from_entries :
    calendarDayMarked [] "2024-01-15T00:00:00.000Z" = true ∧
    doesDateHaveEntries [] "2024-01-15T00:00:00.000Z" = false :=
  ⟨rfl, rfl⟩

theorem nodup_insTag {acc : List String} (h : acc.Nodup) (t : String) :
    (insTag acc t).Nodup := by
  unfold insTag
  by_cases hm : lowerStr t ∈ acc
  · rw [if_pos hm]
    exact h
  · rw [if_neg hm]
    rw [(List.perm_append_singleton _ _).nodup_iff]
    exact List.nodup_cons.mpr ⟨hm, h⟩

theorem mem_insTag {x : String} {acc : List String} {t : String} :
    x ∈ insTag acc t ↔ x ∈ acc ∨ x = lowerStr t := by
  unfold insTag
  by_cases hm : lowerStr t ∈ acc
  · rw [if_pos hm]
    constructor
    · exact Or.inl
    · rintro (hx | rfl)
      · exact hx
      · exact hm
  · rw [if_neg hm]
    simp

theorem nodup_foldl_insTag (tags : List String) :
    ∀ acc : List String, acc.Nodup → (tags.foldl insTag acc).Nodup := by
  induction tags with
  | nil => exact fun acc h => h
  | cons t rest ih => exact fun acc h => ih _ (nodup_insTag h t)

theorem mem_foldl_insTag (tags : List String) :
    ∀ acc : List String, ∀ x,
      (x ∈ tags.foldl insTag acc ↔ x ∈ acc ∨ ∃ t ∈ tags, lowerStr t = x) := by
  induction tags with
  | nil => simp
  | cons t rest ih =>
    intro acc x
    show x ∈ rest.foldl insTag (insTag acc t) ↔ _
    rw [ih]
    rw [mem_insTag]
    constructor
    · rintro ((hx | rfl) | ⟨u, hu, rfl⟩)
      · exact Or.inl hx
      · exact Or.inr ⟨t, List.mem_cons_self t rest, rfl⟩
      · exact Or.inr ⟨u, List.mem_cons_of_mem t hu, rfl⟩
    · rintro (hx | ⟨u, hu, rfl⟩)
      · exact Or.inl (Or.inl hx)
      · rcases List.mem_cons.mp hu with rfl | hu2
        · exact Or.inl (Or.inr rfl)
        · exact Or.inr ⟨u, hu2, rfl⟩

theorem nodup_collectTags (entries : List Entry) : (collectTags entries).Nodup := by
  unfold collectTags
  have hgen : ∀ l : List Entry, ∀ acc : List String, acc.Nodup →
      (l.foldl (fun acc e => e.tags.foldl insTag acc) acc).Nodup := by
    intro l
    induction l with
    | nil => exact fun acc h => h
    | cons a rest ih => exact fun acc h => ih _ (nodup_foldl_insTag a.tags acc h)
  exact hgen entries [] List.nodup_nil

theorem mem_collectTags (entries : List Entry) (x : String) :
    x ∈ collectTags entries ↔ ∃ e ∈ entries, ∃ t ∈ e.tags, lowerStr t = x := by
  unfold collectTags
  have hgen : ∀ l : List Entry, ∀ acc : List String,
      (x ∈ l.foldl (fun acc e => e.tags.foldl insTag acc) acc ↔
        x ∈ acc ∨ ∃ e ∈ l, ∃ t ∈ e.tags, lowerStr t = x) := by
    intro l
    induction l with
    | nil => simp
    | cons a rest ih =>
      intro acc
      show x ∈ rest.foldl _ (a.tags.foldl insTag acc) ↔ _
      rw [ih, mem_foldl_insTag]
      constructor
      · rintro ((hx | ⟨t, ht, rfl⟩) | ⟨e, he, t, ht, rfl⟩)
        · exact Or.inl hx
        · exact Or.inr ⟨a, List.mem_cons_self a rest, t, ht, rfl⟩
        · exact Or.inr ⟨e, List.mem_cons_of_mem a he, t, ht, rfl⟩
      · rintro (hx | ⟨e, he, t, ht, rfl⟩)
        · exact Or.inl (Or.inl hx)
        · rcases List.mem_cons.mp he with rfl | he2
          · exact Or.inl (Or.inr ⟨t, ht, rfl⟩)
          · exact Or.inr ⟨e, he2, t, ht, rfl⟩
  rw [hgen entries []]
  simp

/-- C6: the derived tag index is the union of all tags across all records,
case-folded to lowercase, with no duplicate entries, sorted
lexicographically. -/
theorem loadTags_spec (entries : List Entry) :
    (loadTags entries).Nodup ∧
    List.Sorted (fun a b : String => a ≤ b) (loadTags entries) ∧
    ∀ s : String, s ∈ loadTags entries ↔ ∃ e ∈ entries, ∃ t ∈ e.tags, lowerStr t = s := by
  refine ⟨?_, ?_, ?_⟩
  · exact ((List.perm_insertionSort _ _).symm).nodup (nodup_collectTags entries)
  · exact List.sorted_insertionSort _ _
  · intro s
    unfold loadTags
    rw [List.mem_insertionSort]
    exact mem_collectTags entries s

/-- C7: an upload whose content type is outside the allowed set or whose size
exceeds 10 MiB is rejected before any storage operation: the store passes
through unchanged and the outcome is a rejection message, not an
exception. -/
theorem upload_rejected_leaves_store (store : List Entry) (form : UploadForm)
    (now : String) (cid : Option Nat) (f : FileInfo)
    (hfile : form.file = some f)
    (hbad : ALLOWED_TYPES f.mimeType = none ∨ MAX_FILE_SIZE < f.size) :
    (handleUpload store form now cid).1 = store ∧
    ((handleUpload store form now cid).2.isRejected = true) := by
  simp only [handleUpload, hfile]
  by_cases ht : trimStr form.title = ""
  · rw [if_pos ht]
    exact ⟨rfl, rfl⟩
  · rw [if_neg ht]
    rcases hbad with hb | hb
    · rw [hb]
      exact ⟨rfl, rfl⟩
    · cases hv : ALLOWED_TYPES f.mimeType with
      | none =>
        exact ⟨rfl, rfl⟩
      | some k =>
        simp only [Option.isNone_some, Bool.false_eq_true, if_false]
        rw [if_pos hb]
        exact ⟨rfl, rfl⟩

/-- The oversized upload of the specification scenario: an 11 MiB PDF. -/
def bigFile : FileInfo :=
  { name := "big.pdf"
    mimeType := "application/pdf"
    size := 11534336
    dataURL := "data:application/pdf;base64,DDDD" }

/-- Form state submitting the oversized file. -/
def bigForm : UploadForm :=
  { file := some bigFile
    title := "Large file"
    description := ""
    tags := "" }

theorem upload_rejected_leaves_store_witness :
    (bigForm.file = some bigFile) ∧
    (ALLOWED_TYPES bigFile.mimeType = none ∨ MAX_FILE_SIZE < bigFile.size) ∧
    ((handleUpload [sampleA] bigForm "2024-01-03T00:00:00.000Z" none).1 = [sampleA] ∧
      ((handleUpload [sampleA] bigForm "2024-01-03T00:00:00.000Z" none).2.isRejected = true)) :=
  ⟨rfl, Or.inr (by decide),
    upload_rejected_leaves_store [sampleA] bigForm "2024-01-03T00:00:00.000Z" none bigFile rfl
      (Or.inr (by decide))⟩

/-- C8: on the fallback backend, deleting an id makes a following lookup of
that id yield the not-found signal, and deleting the same id again does not
fail - it is a no-op on the already-absent id. -/
theorem remove_then_get_none_and_remove_idempotent (entries : List Entry) (id : Nat) :
    getEntryById (removeEntryFromLocalStorage entries id) id = none ∧
    removeEntryFromLocalStorage (removeEntryFromLocalStorage entries id) id
      = removeEntryFromLocalStorage entries id := by
  constructor
  · unfold getEntryById removeEntryFromLocalStorage
    rw [List.find?_eq_none]
    intro x hx
    have hpx := (List.mem_filter.mp hx).2
    simp only [bne_iff_ne, ne_eq] at hpx
    simpa using hpx
  · unfold removeEntryFromLocalStorage
    rw [List.filter_filter]
    apply List.filter_congr
    intro x _
    exact Bool.and_self _

theorem map_id_set {store : List Entry} {i : Nat} {r : Entry}
    (hi : i < store.length) (hr : store[i].id = r.id) :
    ((store.set i r).map fun e => e.id) = store.map fun e => e.id := by
  induction store generalizing i with
  | nil => cases hi
  | cons a t ih =>
    cases i with
    | zero =>
      simp only [List.getElem_cons_zero] at hr
      simp [List.set, hr]
    | succ j =>
      have hj : j < t.length := Nat.lt_of_succ_lt_succ hi
      have hr2 : t[j].id = r.id := by simpa using hr
      simp only [List.set_cons_succ, List.map_cons]
      rw [ih hj hr2]

theorem nodupIds_insert (store : List Entry) (e : Entry)
    (h : (store.map fun x => x.id).Nodup) :
    ((addEntryToLocalStorage store e).1.map fun x => x.id).Nodup := by
  show ((store ++ [{ e with id := (addEntryToLocalStorage store e).2 }]).map fun x : Entry => x.id).Nodup
  simp only [List.map_append, List.map_cons, List.map_nil]
  rw [(List.perm_append_singleton _ _).nodup_iff]
  refine List.nodup_cons.mpr ⟨?_, h⟩
  intro hmem
  rw [List.mem_map] at hmem
  obtain ⟨x, hxmem, hxeq⟩ := hmem
  cases store with
  | nil => cases hxmem
  | cons a t =>
    have hle := le_maxIdOf hxmem
    have hx2 : x.id = maxIdOf (a :: t) + 1 := hxeq
    omega

theorem nodupIds_update (store : List Entry) (r : Entry)
    (h : (store.map fun x => x.id).Nodup) :
    ((updateEntryInLocalStorage store r).map fun x => x.id).Nodup := by
  unfold updateEntryInLocalStorage
  cases hfi : store.findIdx? (fun e => e.id == r.id) with
  | none => exact h
  | some i =>
    obtain ⟨hlt, hp, -⟩ := List.findIdx?_eq_some_iff_getElem.mp hfi
    have hr : store[i].id = r.id := by simpa using hp
    rw [map_id_set hlt hr]
    exact h

theorem nodupIds_delete (store : List Entry) (id : Nat)
    (h : (store.map fun x => x.id).Nodup) :
    ((removeEntryFromLocalStorage store id).map fun x => x.id).Nodup := by
  unfold removeEntryFromLocalStorage
  exact List.Nodup.sublist (List.Sublist.map _ (List.filter_sublist store)) h

theorem applyOp_preserves_nodupIds (store : List Entry) (o : Op)
    (h : (store.map fun x => x.id).Nodup) :
    ((applyOp store o).map fun x => x.id).Nodup := by
  cases o with
  | insert e => exact nodupIds_insert store e h
  | update e => exact nodupIds_update store e h
  | delete id => exact nodupIds_delete store id h

/-- C9: id uniqueness is an invariant of the fallback store - starting from
the empty store, every sequence of insert, update and delete operations
leaves all stored record ids pairwise distinct. -/
theorem applyOps_ids_nodup (ops : List Op) :
    ((applyOps [] ops).map fun e => e.id).Nodup := by
  have hgen : ∀ l : List Op, ∀ store : List Entry,
      (store.map fun e => e.id).Nodup → ((applyOps store l).map fun e => e.id).Nodup := by
    intro l
    induction l with
    | nil => exact fun store h => h
    | cons o rest ih => exact fun store h => ih _ (applyOp_preserves_nodupIds store o h)
  exact hgen ops [] List.nodup_nil

/-- C10: for a record whose description is absent (the empty string in the
source representation), the search predicate is still well defined - the
embedding is a total function, mirroring the short-circuit truthiness guard
that prevents the source from dereferencing an undefined description - and a
record with an absent description matches a non-empty search term exactly
when its title contains the term case-insensitively. -/
theorem search_absent_description (e : Entry) (s : String)
    (hd : e.description = "") (hs : s ≠ "") :
    matchesSearch (lowerStr s) e = strIncludes (lowerStr e.title) (lowerStr s) := by
  have hst : lowerStr s ≠ "" := fun h => hs (lowerStr_eq_empty_iff.mp h)
  have h1 : (lowerStr s == "") = false := by simpa using hst
  have h2 : decide (e.description ≠ "") = false := by simp [hd]
  simp [matchesSearch, h1, h2]

theorem search_absent_description_witness :
    (sampleB.description = "") ∧ ("Pho" ≠ "") ∧
    (matchesSearch (lowerStr "Pho") sampleB
      = strIncludes (lowerStr sampleB.title) (lowerStr "Pho")) :=
  ⟨rfl, by decide, search_absent_description sampleB "Pho" rfl (by decide)⟩
